import Mathlib

/-!
Verification development for the dymoprint label printer driver.

The definitions below are a shallow embedding of `dymoprint.py`:
the stateful `DymoLabeler` command builder becomes explicit state
passing over a `DymoLabeler` record, Python exceptions become
`Except` with a `PyError` tag, and the byte lists kept by the
builder are `List Int` (Python ints).  Bytes flushed to the device
file by `sendCommand` are recorded in the `written` field.
-/

/-- Python exception kinds raised on the embedded code paths. -/
inductive PyError where
  | valueError
  | indexError
  | osError
  | zeroDivision
  | dymoPrint
deriving DecidableEq, Repr

/-- State of the `DymoLabeler` object (`__init__`): the command buffer
`cmd`, the `response` flag, the memoized `bytesPerLine_`, the current
`dotTab_`, plus `written`, which models the device file by recording
every buffer flushed by `sendCommand`. -/
structure DymoLabeler where
  cmd : List Int
  response : Bool
  bytesPerLine_ : Option Int
  dotTab_ : Int
  written : List (List Int)
deriving DecidableEq, Repr

/-- `_ESC = 0x1b`. -/
def ESC : Int := 27

/-- `_SYN = 0x16`. -/
def SYN : Int := 22

/-- `_MAX_BYTES_PER_LINE = 8`. -/
def MAX_BYTES_PER_LINE : Int := 8

/-- `self.maxLines = 200`. -/
def maxLines : Nat := 200

/-- The freshly initialized labeler state. -/
def dymoInit : DymoLabeler :=
  { cmd := [], response := false, bytesPerLine_ := none, dotTab_ := 0, written := [] }

namespace DymoLabeler

/-- `buildCommand`: append the next instruction to the command buffer. -/
def buildCommand (s : DymoLabeler) (c : List Int) : DymoLabeler :=
  { s with cmd := s.cmd ++ c }

/-- `statusRequest`: append `ESC 'A'` and set the response flag. -/
def statusRequest (s : DymoLabeler) : DymoLabeler :=
  { buildCommand s [ESC, 65] with response := true }

/-- `dotTab(value)`: raises `ValueError` when `value < 0` or
`value > _MAX_BYTES_PER_LINE`; otherwise appends `ESC 'B' value`,
stores `dotTab_` and clears the `bytesPerLine_` memo.  An error
carries the state at raise time (the raise precedes any append). -/
def dotTab (s : DymoLabeler) (value : Int) :
    Except (PyError × DymoLabeler) DymoLabeler :=
  if value < 0 ∨ value > MAX_BYTES_PER_LINE then .error (.valueError, s)
  else .ok { buildCommand s [ESC, 66, value] with dotTab_ := value, bytesPerLine_ := none }

/-- `tapeColor(value)`: raises `ValueError` when `value < 0`, else
appends `ESC 'C' value`. -/
def tapeColor (s : DymoLabeler) (value : Int) :
    Except (PyError × DymoLabeler) DymoLabeler :=
  if value < 0 then .error (.valueError, s)
  else .ok (buildCommand s [ESC, 67, value])

/-- `bytesPerLine(value)`: raises `ValueError` when `value < 0` or
`value + dotTab_ > _MAX_BYTES_PER_LINE`; a no-op when `value` equals
the memo; otherwise appends `ESC 'D' value` and updates the memo. -/
def bytesPerLine (s : DymoLabeler) (value : Int) :
    Except (PyError × DymoLabeler) DymoLabeler :=
  if value < 0 ∨ value + s.dotTab_ > MAX_BYTES_PER_LINE then .error (.valueError, s)
  else if some value = s.bytesPerLine_ then .ok s
  else .ok { buildCommand s [ESC, 68, value] with bytesPerLine_ := some value }

/-- `line(value)`: `bytesPerLine(len(value))` then append `SYN ++ value`. -/
def line (s : DymoLabeler) (value : List Int) :
    Except (PyError × DymoLabeler) DymoLabeler :=
  match bytesPerLine s (value.length : Int) with
  | .error e => .error e
  | .ok s1 => .ok (buildCommand s1 (SYN :: value))

/-- `skipLines(value)`: raises `ValueError` when `value <= 0`; else
`bytesPerLine(0)` then append `value` copies of `SYN`. -/
def skipLines (s : DymoLabeler) (value : Int) :
    Except (PyError × DymoLabeler) DymoLabeler :=
  if value ≤ 0 then .error (.valueError, s)
  else match bytesPerLine s 0 with
    | .error e => .error e
    | .ok s1 => .ok (buildCommand s1 (List.replicate value.toNat SYN))

/-- `initLabel`: append eight `0x00` bytes.  (Defined in the source but,
in `rawPrintLabel`, referenced without being called.) -/
def initLabel (s : DymoLabeler) : DymoLabeler :=
  buildCommand s (List.replicate 8 0)

/-- `sendCommand`: no I/O when the buffer is empty; otherwise the buffer
bytes are written to the device (recorded in `written`), the buffer is
cleared and the response flag reset (the 8-byte status read is external
input and is not modelled further). -/
def sendCommand (s : DymoLabeler) : DymoLabeler :=
  if s.cmd = [] then s
  else { s with written := s.written ++ [s.cmd], cmd := [], response := false }

end DymoLabeler

/-- Whether an embedded call returned normally rather than raising. -/
def exceptIsOk : Except (PyError × DymoLabeler) DymoLabeler → Bool
  | .ok _ => true
  | .error _ => false

/-- Python `max` over a list: `none` on the empty list, where CPython
raises `ValueError`. -/
def pyMax : List Int → Option Int
  | [] => none
  | x :: xs => some (xs.foldl max x)

/-- Fuel-indexed form of the leading-zero strip loop of `rawPrintLabel`:
`while [] not in lines and max(line[0] for line in lines) == 0:
lines = [line[1:] for line in lines]; dottab += 1`.  Running out of fuel
returns the loop-exit value, so any fuel bound above the iteration
count computes the loop exactly (`stripZeros_eq` below). -/
def stripZerosF : Nat → List (List Int) → Nat → Except PyError (List (List Int) × Nat)
  | 0, lines, dottab => .ok (lines, dottab)
  | fuel + 1, lines, dottab =>
    if [] ∈ lines then .ok (lines, dottab)
    else
      match pyMax (lines.map fun l => l.headD 0) with
      | none => .error .valueError
      | some m =>
        if m = 0 then stripZerosF fuel (lines.map fun l => l.tail) (dottab + 1)
        else .ok (lines, dottab)

/-- The strip loop with sufficient fuel: each iteration shortens every
row by one byte, so the first row's length bounds the iteration count. -/
def stripZeros (lines : List (List Int)) (dottab : Nat) :
    Except PyError (List (List Int) × Nat) :=
  stripZerosF ((lines.headD []).length + 1) lines dottab

/-- The trailing-zero trim of `rawPrintLabel`:
`while len(line) > 0 and line[-1] == 0: del line[-1]`. -/
def dropTrailingZeros (l : List Int) : List Int :=
  (l.reverse.dropWhile fun x => x == 0).reverse

namespace DymoLabeler

/-- `rawPrintLabel(lines, margin)`: strip leading zero byte-columns into
`dottab`, trim trailing zeros per row, then (the bare `self.initLabel`
in the source is an attribute reference without a call, so nothing is
appended for it) `tapeColor(0)`, `dotTab(dottab)`, one `line` per row,
`skipLines(margin)` when `margin > 0`, `statusRequest()` and
`sendCommand()`. -/
def rawPrintLabel (s : DymoLabeler) (lines : List (List Int)) (margin : Int) :
    Except (PyError × DymoLabeler) DymoLabeler :=
  match stripZeros lines 0 with
  | .error e => .error (e, s)
  | .ok (lines1, dottab) =>
    let lines2 := lines1.map dropTrailingZeros
    match s.tapeColor 0 with
    | .error e => .error e
    | .ok sa =>
      match sa.dotTab (dottab : Int) with
      | .error e => .error e
      | .ok sb =>
        match lines2.foldlM DymoLabeler.line sb with
        | .error e => .error e
        | .ok sc =>
          match (if margin > 0 then sc.skipLines margin else .ok sc) with
          | .error e => .error e
          | .ok sd => .ok sd.statusRequest.sendCommand

/-- Fuel-indexed form of the chunking loop of `printLabel`:
`while len(lines) > self.maxLines + 1: self.rawPrintLabel(lines[0:200],
margin=0); del lines[0:200]` followed by `self.rawPrintLabel(lines,
margin=margin)`.  Running out of fuel performs the loop-exit call, so
any fuel bound above the iteration count computes the loop exactly. -/
def printLabelF : Nat → DymoLabeler → List (List Int) → Int →
    Except (PyError × DymoLabeler) DymoLabeler
  | 0, s, lines, margin => s.rawPrintLabel lines margin
  | fuel + 1, s, lines, margin =>
    if lines.length > maxLines + 1 then
      match s.rawPrintLabel (lines.take maxLines) 0 with
      | .error e => .error e
      | .ok s1 => printLabelF fuel s1 (lines.drop maxLines) margin
    else s.rawPrintLabel lines margin

/-- `printLabel(lines, margin)`: the loop peels one 200-row chunk per
iteration, so `lines.length` amply bounds the iteration count. -/
def printLabel (s : DymoLabeler) (lines : List (List Int)) (margin : Int) :
    Except (PyError × DymoLabeler) DymoLabeler :=
  printLabelF lines.length s lines margin

end DymoLabeler

/-- Reference byte stream for the `line` calls of one chunk: threading
the `bytesPerLine_` memo, each row contributes an `ESC 'D' len` command
unless `len` equals the memo, then `SYN` and the row bytes. -/
def linesStream : Option Int → List (List Int) → List Int
  | _, [] => []
  | memo, l :: rest =>
    ((if some (l.length : Int) = memo then [] else [ESC, 68, (l.length : Int)]) ++
      SYN :: l) ++ linesStream (some (l.length : Int)) rest

/-- The `bytesPerLine_` memo after emitting the given rows. -/
def memoAfter : Option Int → List (List Int) → Option Int
  | memo, [] => memo
  | _, l :: rest => memoAfter (some (l.length : Int)) rest

/-- Whether the first check of the leading-zero strip loop succeeds,
i.e. `[] not in lines and max(line[0] for line in lines) == 0` is true
at loop entry (undefined at `lines = []`, where CPython raises). -/
def stripsFirstColumn (lines : List (List Int)) : Bool :=
  decide ([] ∉ lines) && (pyMax (lines.map fun l => l.headD 0) == some 0)

/-- Caller-visible content of the list object passed to `rawPrintLabel`
after the call, per Python aliasing semantics: when at least one leading
byte-column is stripped, `lines = [line[1:] for line in lines]` rebinds
the local name to fresh row lists and the caller's rows are untouched;
when no column is stripped, the trailing-zero loop `del line[-1]`
mutates the caller's own row objects in place. -/
def rawPrintArgAfter (lines : List (List Int)) : List (List Int) :=
  if stripsFirstColumn lines then lines else lines.map dropTrailingZeros

/-- Rows remaining in the caller's list once the chunking loop of
`printLabel` has deleted every printed 200-row chunk in place
(`del lines[0:200]` while more than `maxLines + 1` rows remain). -/
def pendingRowsF : Nat → List (List Int) → List (List Int)
  | 0, lines => lines
  | fuel + 1, lines =>
    if lines.length > maxLines + 1 then pendingRowsF fuel (lines.drop maxLines)
    else lines

/-- Rows remaining with sufficient fuel: the loop peels 200 rows per
iteration, so `lines.length` amply bounds the iteration count. -/
def pendingRows (lines : List (List Int)) : List (List Int) :=
  pendingRowsF lines.length lines

/-- Caller-visible content of the matrix argument after `printLabel`
returns: the chunking loop deletes printed chunks from the caller's
list, and the final `rawPrintLabel` call receives the caller's list
itself, so its in-place effect (`rawPrintArgAfter`) applies to the
remaining rows. -/
def printLabelArgAfter (lines : List (List Int)) : List (List Int) :=
  rawPrintArgAfter (pendingRows lines)

/-! ### Bitmap composition and the matrix transform -/

/-- A PIL image as consumed by `main`: mode `'1'`, a declared size and
the pixel rows (`true` = lit pixel). -/
structure PILImage where
  width : Nat
  height : Nat
  rows : List (List Bool)
deriving DecidableEq, Repr

/-- A `PILImage` is well formed when its rows agree with its declared
size, which PIL guarantees for every image it hands out. -/
def PILImage.valid (img : PILImage) : Prop :=
  img.rows.length = img.height ∧ ∀ r ∈ img.rows, r.length = img.width

/-- Models the external `Image.transpose(Image.ROTATE_270)`: a `w × h`
image becomes `h × w`; each new row is an original column read from the
bottom row upward. -/
def rotate270 (img : PILImage) : PILImage :=
  { width := img.height, height := img.width,
    rows := (List.range img.width).map fun c => img.rows.reverse.map fun r => r.getD c false }

/-- One raster row packed to bytes, most significant bit first, the
last byte zero-padded — the per-row packing of PIL `tobytes()` for a
mode `'1'` image. -/
def packBits (bits : List Bool) : Int :=
  (bits.foldl (fun acc b => acc * 2 + (if b then 1 else 0)) 0) * 2 ^ (8 - bits.length)

/-- Fuel-indexed splitting of a row into 8-pixel groups; fuel
`bits.length` suffices since every step consumes at least one pixel. -/
def packRowF : Nat → List Bool → List Int
  | 0, _ => []
  | _, [] => []
  | fuel + 1, bits => packBits (bits.take 8) :: packRowF fuel (bits.drop 8)

/-- All bytes of one packed raster row. -/
def packRow (bits : List Bool) : List Int :=
  packRowF bits.length bits

/-- Models the external `Image.tobytes()` for mode `'1'`: rows packed
one after another, each row padded to a whole number of bytes. -/
def tobytes1 (img : PILImage) : List Int :=
  img.rows.flatMap packRow

/-- Fuel-indexed slicing of the byte stream into row-length chunks,
mirroring `[labelstream[i:i+rowlen] for i in range(0, len, rowlen)]`;
fuel `stream.length` suffices for `rowlen ≥ 1`. -/
def chunksF : Nat → Nat → List Int → List (List Int)
  | 0, _, _ => []
  | _, _, [] => []
  | fuel + 1, rowlen, stream => stream.take rowlen :: chunksF fuel rowlen (stream.drop rowlen)

/-- The matrix conversion of `main`: rotate 270 degrees, serialize,
compute `rowlen = ceil(height / 8)`, check
`len(stream) // rowlen == width` (raising the internal-consistency
`DymoPrintException` on mismatch, and Python's `ZeroDivisionError`
when `rowlen = 0`), then slice the stream into the label matrix. -/
def matrixTransform (img : PILImage) : Except PyError (List (List Int)) :=
  let stream := tobytes1 (rotate270 img)
  let rowlen := (img.height + 7) / 8
  if rowlen = 0 then .error .zeroDivision
  else if stream.length / rowlen ≠ img.width then .error .dymoPrint
  else .ok (chunksF stream.length rowlen stream)

/-- One row of the pasted composition: the elements' rows side by side
with 4 background pixels between adjacent elements; an element shorter
than the canvas contributes background below its own height (models the
external `Image.paste` into the fresh black canvas). -/
def composedRow (bitmaps : List PILImage) (y : Nat) : List Bool :=
  match bitmaps with
  | [] => []
  | [b] => if y < b.height then b.rows.getD y [] else List.replicate b.width false
  | b :: rest =>
    (if y < b.height then b.rows.getD y [] else List.replicate b.width false) ++
      List.replicate 4 false ++ composedRow rest y

/-- The composition step of `main`: with more than one bitmap, a fresh
canvas of width `sum of widths + 4 * (count - 1)` and height
`bitmaps[0].height` receives every bitmap pasted left to right;
otherwise `bitmaps[0]` itself is used. -/
def composeBitmaps (bitmaps : List PILImage) : PILImage :=
  if bitmaps.length > 1 then
    { width := (bitmaps.map fun b => b.width).sum + 4 * (bitmaps.length - 1),
      height := (bitmaps.headD { width := 0, height := 0, rows := [] }).height,
      rows := (List.range (bitmaps.headD { width := 0, height := 0, rows := [] }).height).map
        fun y => composedRow bitmaps y }
  else bitmaps.headD { width := 0, height := 0, rows := [] }

/-! ### QR composition -/

/-- `scaling((x, y), sc)`: the `sc × sc` block of pixel coordinates
`[(x+i, y+j) for i in range(sc) for j in range(sc)]`. -/
def scaling (pix : Nat × Nat) (sc : Nat) : List (Nat × Nat) :=
  (List.range sc).flatMap fun i => (List.range sc).map fun j => (pix.1 + i, pix.2 + j)

/-- The pixels painted by the QR drawing loop: for every module row `i`
and column `j` holding the character `'1'`, the scaled block at
`(j * sc, i * sc + off)`. -/
def qrPoints (qr : List (List Char)) (sc off : Nat) : List (Nat × Nat) :=
  (List.range qr.length).flatMap fun i =>
    (List.range (qr.getD i []).length).flatMap fun j =>
      if (qr.getD i []).getD j '0' = '1' then scaling (j * sc, i * sc + off) sc else []

/-- The QR branch of `main` given the module rows returned by the
external encoder: `labelheight = 8 * 8`, `qr_scale = 64 // N`,
`qr_offset = (64 - N * qr_scale) // 2`; `N = 0` raises Python's
`ZeroDivisionError`, `qr_scale == 0` raises the too-dense
`DymoPrintException`; otherwise the painted 64 × 64 bitmap results. -/
def qrCompose (qr : List (List Char)) : Except PyError (Nat × Nat × List (Nat × Nat)) :=
  let labelheight := 8 * 8
  let labelwidth := labelheight
  if qr.length = 0 then .error .zeroDivision
  else
    let qr_scale := labelheight / qr.length
    let qr_offset := (labelheight - qr.length * qr_scale) / 2
    if qr_scale = 0 then .error .dymoPrint
    else .ok (labelwidth, labelheight, qrPoints qr qr_scale qr_offset)

/-! ### Device file lookup -/

/-- Whether a character belongs to the regex class `[0-9A-F]`. -/
def isHexUpper (c : Char) : Bool :=
  (48 ≤ c.toNat && c.toNat ≤ 57) || (65 ≤ c.toNat && c.toNat ≤ 70)

/-- Left-pad a digit string with `'0'` to width 4, as the `%04d` and
`%04X` conversions do. -/
def pad4 (ds : List Char) : List Char :=
  List.replicate (4 - ds.length) '0' ++ ds

/-- `%04d` of a natural number. -/
def fmt4d (n : Nat) : List Char :=
  pad4 (Nat.toDigits 10 n)

/-- `%04X` of a natural number (uppercase hexadecimal). -/
def fmt4X (n : Nat) : List Char :=
  pad4 ((Nat.toDigits 16 n).map Char.toUpper)

/-- The suffix of the device-name regex after the fixed prefix: `.` (any
character but a newline) then `[0-9A-F]{4}` then `$`, where Python's
`$` also accepts one trailing newline. -/
def tailMatch : List Char → Bool
  | [c, h1, h2, h3, h4] =>
    decide (c ≠ '\n') && isHexUpper h1 && isHexUpper h2 && isHexUpper h3 && isHexUpper h4
  | [c, h1, h2, h3, h4, nl] =>
    decide (c ≠ '\n') && isHexUpper h1 && isHexUpper h2 && isHexUpper h3 && isHexUpper h4 &&
      decide (nl = '\n')
  | _ => false

/-- `re.match('^%04d:%04X:%04X.[0-9A-F]{4}$' % ids, devname)` as a
Boolean predicate on the entry name. -/
def reMatchDev (classID vendorID productID : Nat) (name : List Char) : Bool :=
  let pre := fmt4d classID ++ ':' :: fmt4X vendorID ++ ':' :: fmt4X productID
  decide (name.take pre.length = pre) && tailMatch (name.drop pre.length)

/-- Models the filesystem state consumed by `getDeviceFile`: the entries
of `/sys/bus/hid/devices`, and for the first matching entry the listing
of its `hidraw` subdirectory, the `major:minor` pair read from its `dev`
attribute file, the resolved target of the `/dev/char/<major>:<minor>`
symlink when that path exists, the `st_rdev` of `/dev/<hidraw name>`
when that file exists (`none` means `os.stat` raises), and the files
seen by `os.walk('/dev')` with their device numbers. -/
structure SysFS where
  busEntries : List (List Char)
  hidrawEntries : List (List Char)
  devMajor : Nat
  devMinor : Nat
  charSymlinkTarget : Option (List Char)
  devNameRdev : Option (Nat × Nat)
  devWalkFiles : List (List Char × (Nat × Nat))
deriving DecidableEq, Repr

/-- The path `/dev/<name>`. -/
def devPath (name : List Char) : List Char :=
  ['/', 'd', 'e', 'v', '/'] ++ name

/-- `getDeviceFile(classID, vendorID, productID)`: find the first bus
entry matching the regex (`None` when there is none), take the first
`hidraw` entry (`IndexError` on an empty listing), read the
`major:minor` pair, then resolve in order: the `/dev/char` by-number
symlink; the name-based candidate `/dev/<hidraw name>` whose `os.stat`
raises `OSError` when the file is missing and whose device number must
match; finally a full walk of `/dev` comparing device numbers, falling
off the end (`None`) when nothing matches. -/
def getDeviceFile (fs : SysFS) (classID vendorID productID : Nat) :
    Except PyError (Option (List Char)) :=
  match fs.busEntries.find? (fun n => reMatchDev classID vendorID productID n) with
  | none => .ok none
  | some _ =>
    match fs.hidrawEntries with
    | [] => .error .indexError
    | devname :: _ =>
      match fs.charSymlinkTarget with
      | some target => .ok (some target)
      | none =>
        match fs.devNameRdev with
        | none => .error .osError
        | some rdev =>
          if rdev = (fs.devMajor, fs.devMinor) then .ok (some (devPath devname))
          else
            match fs.devWalkFiles.find? (fun p => p.2 = (fs.devMajor, fs.devMinor)) with
            | some p => .ok (some p.1)
            | none => .ok none

theorem foldl_max_mem (x : Int) (xs : List Int) : xs.foldl max x ∈ x :: xs := by
  induction xs generalizing x with
  | nil => simp
  | cons y ys ih =>
    simp only [List.foldl_cons]
    have h := ih (max x y)
    rcases List.mem_cons.mp h with h1 | h1
    · rw [h1]
      rcases max_choice x y with h2 | h2 <;> simp [h2]
    · simp [h1]

/-- The Python maximum of a nonempty list is one of its elements. -/
theorem pyMax_mem {l : List Int} {m : Int} (h : pyMax l = some m) : m ∈ l := by
  cases l with
  | nil => simp [pyMax] at h
  | cons x xs =>
    simp only [pyMax, Option.some.injEq] at h
    subst h
    exact foldl_max_mem x xs

/-- The Python maximum of a nonempty all-zero list is zero. -/
theorem pyMax_all_zero {l : List Int} (hne : l ≠ []) (hz : ∀ y ∈ l, y = 0) :
    pyMax l = some 0 := by
  cases l with
  | nil => exact absurd rfl hne
  | cons x xs =>
    simp only [pyMax, Option.some.injEq]
    have hx : x = 0 := hz x (List.mem_cons_self x xs)
    subst hx
    induction xs with
    | nil => rfl
    | cons y ys ih =>
      have hy : y = 0 := hz y (List.mem_cons_of_mem 0 (List.mem_cons_self y ys))
      subst hy
      simp only [List.foldl_cons, max_self]
      exact ih (by simp) (fun z hm => hz z (List.mem_cons_of_mem 0 hm))

/-- Unfolding equation for the strip loop (from earlier test, re-added). -/
theorem stripZeros_eq (lines : List (List Int)) (d : Nat) :
    stripZeros lines d =
      if [] ∈ lines then .ok (lines, d)
      else
        match pyMax (lines.map fun l => l.headD 0) with
        | none => .error .valueError
        | some m =>
          if m = 0 then stripZeros (lines.map fun l => l.tail) (d + 1)
          else .ok (lines, d) := by
  cases lines with
  | nil => simp [stripZeros, stripZerosF, pyMax]
  | cons l rest =>
    by_cases hmem : [] ∈ l :: rest
    · simp [stripZeros, stripZerosF, hmem]
    · cases l with
      | nil => exact absurd (List.mem_cons_self [] rest) hmem
      | cons a t =>
        simp only [stripZeros, List.headD_cons, List.length_cons, stripZerosF, if_neg hmem]
        cases hp : pyMax (((a :: t) :: rest).map fun l => l.headD 0) with
        | none => rfl
        | some m =>
          by_cases hm : m = 0
          · simp [hm, List.map_cons, List.tail_cons, List.headD_cons]
          · simp [hm]

/-- When every row begins with exactly `k` zero bytes and keeps at least
one byte beyond them, the strip loop runs exactly `k` iterations. -/
theorem stripZeros_exact (k : Nat) :
    ∀ (lines : List (List Int)) (d : Nat), lines ≠ [] →
      (∀ l ∈ lines, k < l.length) →
      (∀ l ∈ lines, l.take k = List.replicate k 0) →
      (∀ l ∈ lines, l.getD k 0 ≠ 0) →
      stripZeros lines d = .ok (lines.map (List.drop k), d + k) := by
  induction k with
  | zero =>
    intro lines d hne hlen _ hnz
    rw [stripZeros_eq]
    have hmem : [] ∉ lines := fun hm => by have := hlen [] hm; simp at this
    rw [if_neg hmem]
    cases hp : pyMax (lines.map fun l => l.headD 0) with
    | none =>
      exfalso
      cases lines with
      | nil => exact hne rfl
      | cons l rest => simp [pyMax] at hp
    | some m =>
      have hm : m ∈ lines.map fun l => l.headD 0 := pyMax_mem hp
      obtain ⟨l, hl, hval⟩ := List.mem_map.mp hm
      have hlne : l ≠ [] := fun h => by subst h; exact absurd (hlen [] hl) (by simp)
      have : m ≠ 0 := by
        obtain ⟨a, t, rfl⟩ := List.exists_cons_of_ne_nil hlne
        have := hnz _ hl
        simp only [List.getD] at this
        simp only [List.headD_cons] at hval
        subst hval
        simpa using this
      simp only [this, if_false, ite_false, if_neg this]
      have hid : List.map (List.drop 0) lines = lines := by
        rw [List.map_congr_left fun a _ => List.drop_zero a]
        exact List.map_id lines
      simp [hid]
  | succ k ih =>
    intro lines d hne hlen htake hnz
    rw [stripZeros_eq]
    have hmem : [] ∉ lines := fun hm => by have := hlen [] hm; simp at this
    rw [if_neg hmem]
    have hz : ∀ y ∈ lines.map fun l => l.headD 0, y = 0 := by
      intro y hy
      obtain ⟨l, hl, hval⟩ := List.mem_map.mp hy
      have hlne : l ≠ [] := fun h => by subst h; exact absurd (hlen [] hl) (by simp)
      obtain ⟨a, t, rfl⟩ := List.exists_cons_of_ne_nil hlne
      have ht := htake _ hl
      simp only [List.take_succ_cons, List.replicate_succ, List.cons.injEq] at ht
      simp only [List.headD_cons] at hval
      omega
    have hmax : pyMax (lines.map fun l => l.headD 0) = some 0 :=
      pyMax_all_zero (by simpa using hne) hz
    rw [hmax]
    simp only [if_pos rfl]
    have hres := ih (lines.map fun l => l.tail) (d + 1)
      (by simpa using hne)
      (by
        intro l2 hl2
        obtain ⟨l, hl, rfl⟩ := List.mem_map.mp hl2
        have := hlen l hl
        simp [List.length_tail]
        omega)
      (by
        intro l2 hl2
        obtain ⟨l, hl, rfl⟩ := List.mem_map.mp hl2
        have hlne : l ≠ [] := fun h => by subst h; exact absurd (hlen [] hl) (by simp)
        obtain ⟨a, t, rfl⟩ := List.exists_cons_of_ne_nil hlne
        have ht := htake _ hl
        simp only [List.take_succ_cons, List.replicate_succ, List.cons.injEq] at ht
        simpa using ht.2)
      (by
        intro l2 hl2
        obtain ⟨l, hl, rfl⟩ := List.mem_map.mp hl2
        have hlne : l ≠ [] := fun h => by subst h; exact absurd (hlen [] hl) (by simp)
        obtain ⟨a, t, rfl⟩ := List.exists_cons_of_ne_nil hlne
        have := hnz _ hl
        simpa using this)
    rw [hres]
    have hcomp : List.map (List.drop k) (List.map (fun l => l.tail) lines) =
        List.map (List.drop (k + 1)) lines := by
      rw [List.map_map]
      apply List.map_congr_left
      intro l _
      simp only [Function.comp_apply, ← List.drop_one, List.drop_drop]
      rw [Nat.add_comm]
    have harith : d + 1 + k = d + (k + 1) := by omega
    rw [hcomp, harith]
    simp

/-- C1 counterexample: on the matrix `[[0]]` the leading-zero strip loop of
`rawPrintLabel` removes the byte-column even though this leaves the row empty
(the result is `[[]]` with dot-tab 1), refuting the claim that the loop never
strips a column when doing so would leave a row empty: the emptiness check
runs before stripping, not after. -/
theorem c1_counterexample : stripZeros [[0]] 0 = .ok ([[]], 1) := by rfl

/-- C1 (amended): if every row of a nonempty matrix begins with exactly `k`
zero bytes and keeps at least one byte beyond them, the strip loop removes
exactly `k` leading bytes from every row and the dot-tab value handed to
`dotTab` is exactly `k`; and the loop never strips while some row is already
empty. -/
theorem c1_margin_optimization :
    (∀ (lines : List (List Int)) (k : Nat), lines ≠ [] →
      (∀ l ∈ lines, k < l.length) →
      (∀ l ∈ lines, l.take k = List.replicate k 0) →
      (∀ l ∈ lines, l.getD k 0 ≠ 0) →
      stripZeros lines 0 = .ok (lines.map (List.drop k), k)) ∧
    (∀ (lines : List (List Int)) (d : Nat), [] ∈ lines →
      stripZeros lines d = .ok (lines, d)) := by
  constructor
  · intro lines k hne hlen htake hnz
    have h := stripZeros_exact k lines 0 hne hlen htake hnz
    simpa using h
  · intro lines d hmem
    rw [stripZeros_eq, if_pos hmem]

/-- C1 witness: the theorem applied at `[[0, 1]]` with `k = 1`. -/
theorem c1_witness : stripZeros [[0, 1]] 0 = .ok ([[1]], 1) := by
  have h := c1_margin_optimization.1 [[0, 1]] 1 (by decide) (by decide) (by decide) (by decide)
  simpa using h

set_option maxRecDepth 40000 in
/-- C2 (code bug): `printLabel` splits only while more than
`maxLines + 1 = 201` rows remain, so a 201-row matrix — larger than
`maxLines`, which the docstring says triggers a split — is flushed to the
device as a single 201-row chunk (exactly one write); a 250-row matrix is
flushed as two chunks (200 + 50). -/
theorem c2_batching_bug :
    ((DymoLabeler.printLabel dymoInit (List.replicate 201 [1]) 112).map fun s =>
        s.written.length) = .ok 1 ∧
    ((DymoLabeler.printLabel dymoInit (List.replicate 250 [1]) 112).map fun s =>
        s.written.length) = .ok 2 ∧
    (List.replicate 201 ([1] : List Int)).length > maxLines := by
  refine ⟨by rfl, by rfl, by decide⟩

theorem bindOkE {x : DymoLabeler}
    {f : DymoLabeler → Except (PyError × DymoLabeler) DymoLabeler} :
    (Except.ok x : Except (PyError × DymoLabeler) DymoLabeler).bind f = f x := rfl

theorem bytesPerLine_ok_iff (s : DymoLabeler) (b : Int) :
    exceptIsOk (DymoLabeler.bytesPerLine s b) = true ↔
      ¬(b < 0 ∨ b + s.dotTab_ > MAX_BYTES_PER_LINE) := by
  unfold DymoLabeler.bytesPerLine
  split
  next h => simp [exceptIsOk, h]
  next h =>
    simp only [h, not_false_iff, iff_true]
    split
    · rfl
    · rfl

theorem bytesPerLine_err (s : DymoLabeler) (b : Int)
    (h : b < 0 ∨ b + s.dotTab_ > MAX_BYTES_PER_LINE) :
    DymoLabeler.bytesPerLine s b = .error (.valueError, s) := by
  unfold DymoLabeler.bytesPerLine
  rw [if_pos h]

/-- C3: for every `d` in `[0, 8]` and any `b`, `dotTab d` succeeds, and a
following `bytesPerLine b` succeeds exactly when `0 ≤ b` and `d + b ≤ 8`,
raising `ValueError` (with the buffer state unchanged) otherwise — in
particular for every `b < 0`. -/
theorem c3_dot_tab_bytes_per_line :
    ∀ (s : DymoLabeler) (d b : Int), 0 ≤ d → d ≤ 8 →
      exceptIsOk (DymoLabeler.dotTab s d) = true ∧
      (0 ≤ b →
        (exceptIsOk ((DymoLabeler.dotTab s d).bind fun s1 =>
          DymoLabeler.bytesPerLine s1 b) = true ↔ d + b ≤ 8)) ∧
      (¬(0 ≤ b ∧ d + b ≤ 8) →
        ((DymoLabeler.dotTab s d).bind fun s1 => DymoLabeler.bytesPerLine s1 b) =
          .error (.valueError,
            { DymoLabeler.buildCommand s [ESC, 66, d] with dotTab_ := d, bytesPerLine_ := none })) := by
  intro s d b hd0 hd8
  have hcond : ¬(d < 0 ∨ d > MAX_BYTES_PER_LINE) := by
    simp only [MAX_BYTES_PER_LINE]
    omega
  have hdt : DymoLabeler.dotTab s d =
      .ok { DymoLabeler.buildCommand s [ESC, 66, d] with dotTab_ := d, bytesPerLine_ := none } := by
    unfold DymoLabeler.dotTab
    rw [if_neg hcond]
  refine ⟨by rw [hdt]; rfl, ?_, ?_⟩
  · intro hb0
    rw [hdt, bindOkE, bytesPerLine_ok_iff]
    simp only [MAX_BYTES_PER_LINE]
    constructor
    · intro h
      omega
    · intro h
      omega
  · intro hnb
    rw [hdt, bindOkE]
    apply bytesPerLine_err
    simp only [MAX_BYTES_PER_LINE]
    omega

theorem tapeColor_ok_shape (s : DymoLabeler) (v : Int) (hv : 0 ≤ v) :
    DymoLabeler.tapeColor s v = .ok (DymoLabeler.buildCommand s [ESC, 67, v]) := by
  unfold DymoLabeler.tapeColor
  rw [if_neg (by omega)]

theorem dotTab_ok_shape (s : DymoLabeler) (v : Int)
    (hv : ¬(v < 0 ∨ v > MAX_BYTES_PER_LINE)) :
    DymoLabeler.dotTab s v =
      .ok { DymoLabeler.buildCommand s [ESC, 66, v] with dotTab_ := v, bytesPerLine_ := none } := by
  unfold DymoLabeler.dotTab
  rw [if_neg hv]

theorem bytesPerLine_ok_shape (s : DymoLabeler) (v : Int)
    (h : ¬(v < 0 ∨ v + s.dotTab_ > MAX_BYTES_PER_LINE)) :
    DymoLabeler.bytesPerLine s v =
      .ok { s with
        cmd := s.cmd ++ (if some v = s.bytesPerLine_ then [] else [ESC, 68, v]),
        bytesPerLine_ := some v } := by
  unfold DymoLabeler.bytesPerLine
  rw [if_neg h]
  by_cases hm : some v = s.bytesPerLine_
  · rw [if_pos hm, if_pos hm]
    cases s
    simp_all [DymoLabeler.buildCommand]
  · rw [if_neg hm, if_neg hm]
    rfl

theorem line_ok_shape (s : DymoLabeler) (l : List Int) (s1 : DymoLabeler)
    (h : DymoLabeler.line s l = .ok s1) :
    s1 = { s with
      cmd := s.cmd ++ ((if some (l.length : Int) = s.bytesPerLine_ then []
               else [ESC, 68, (l.length : Int)]) ++ SYN :: l),
      bytesPerLine_ := some (l.length : Int) } := by
  unfold DymoLabeler.line at h
  by_cases hc : ((l.length : Int) < 0 ∨ (l.length : Int) + s.dotTab_ > MAX_BYTES_PER_LINE)
  · rw [bytesPerLine_err s _ hc] at h
    simp at h
  · rw [bytesPerLine_ok_shape s _ hc] at h
    simp only [Except.ok.injEq] at h
    subst h
    cases s
    simp only [DymoLabeler.buildCommand, List.append_assoc]

theorem line_err_shape (s : DymoLabeler) (l : List Int) (e : PyError) (s2 : DymoLabeler)
    (h : DymoLabeler.line s l = .error (e, s2)) : s2 = s ∧ e = .valueError := by
  unfold DymoLabeler.line at h
  by_cases hc : ((l.length : Int) < 0 ∨ (l.length : Int) + s.dotTab_ > MAX_BYTES_PER_LINE)
  · rw [bytesPerLine_err s _ hc] at h
    simp only [Except.error.injEq, Prod.mk.injEq] at h
    exact ⟨h.2.symm, h.1.symm⟩
  · rw [bytesPerLine_ok_shape s _ hc] at h
    simp at h

theorem skipLines_ok_shape (s : DymoLabeler) (v : Int) (hv : 0 < v)
    (hd : ¬((0 : Int) < 0 ∨ (0 : Int) + s.dotTab_ > MAX_BYTES_PER_LINE)) :
    DymoLabeler.skipLines s v =
      .ok { s with
        cmd := s.cmd ++ ((if some 0 = s.bytesPerLine_ then [] else [ESC, 68, 0]) ++
          List.replicate v.toNat SYN),
        bytesPerLine_ := some 0 } := by
  unfold DymoLabeler.skipLines
  rw [if_neg (by omega)]
  rw [bytesPerLine_ok_shape s 0 hd]
  cases s
  simp only [DymoLabeler.buildCommand, List.append_assoc]

theorem skipLines_err_shape (s : DymoLabeler) (v : Int) (e : PyError) (s2 : DymoLabeler)
    (h : DymoLabeler.skipLines s v = .error (e, s2)) : s2.cmd = s.cmd ∧ s2.written = s.written := by
  unfold DymoLabeler.skipLines at h
  by_cases hv : v ≤ 0
  · rw [if_pos hv] at h
    simp only [Except.error.injEq, Prod.mk.injEq] at h
    rw [← h.2]
    exact ⟨rfl, rfl⟩
  · rw [if_neg hv] at h
    by_cases hc : ((0 : Int) < 0 ∨ (0 : Int) + s.dotTab_ > MAX_BYTES_PER_LINE)
    · rw [bytesPerLine_err s 0 hc] at h
      simp only [Except.error.injEq, Prod.mk.injEq] at h
      rw [← h.2]
      exact ⟨rfl, rfl⟩
    · rw [bytesPerLine_ok_shape s 0 hc] at h
      simp at h

theorem foldlM_line_ok (lines : List (List Int)) :
    ∀ (s sf : DymoLabeler), List.foldlM DymoLabeler.line s lines = .ok sf →
      sf = { s with
        cmd := s.cmd ++ linesStream s.bytesPerLine_ lines,
        bytesPerLine_ := memoAfter s.bytesPerLine_ lines } := by
  induction lines with
  | nil =>
    intro s sf h
    simp only [List.foldlM_nil] at h
    have hs : s = sf := by
      have : (Except.ok s : Except (PyError × DymoLabeler) DymoLabeler) = .ok sf := h
      simpa using this
    subst hs
    cases s
    simp [linesStream, memoAfter]
  | cons l rest ih =>
    intro s sf h
    rw [List.foldlM_cons] at h
    cases hl : DymoLabeler.line s l with
    | error e =>
      rw [hl] at h
      have : (Except.error e : Except (PyError × DymoLabeler) DymoLabeler) = .ok sf := h
      simp at this
    | ok s1 =>
      rw [hl] at h
      have h2 : List.foldlM DymoLabeler.line s1 rest = .ok sf := h
      have hrec := ih s1 sf h2
      have hs1 := line_ok_shape s l s1 hl
      subst hs1
      rw [hrec]
      cases s
      simp [linesStream, memoAfter, List.append_assoc]

theorem foldlM_line_err (lines : List (List Int)) :
    ∀ (s : DymoLabeler) (e : PyError) (s2 : DymoLabeler),
      List.foldlM DymoLabeler.line s lines = .error (e, s2) → s2.written = s.written := by
  induction lines with
  | nil =>
    intro s e s2 h
    simp only [List.foldlM_nil] at h
    have : (Except.ok s : Except (PyError × DymoLabeler) DymoLabeler) = .error (e, s2) := h
    simp at this
  | cons l rest ih =>
    intro s e s2 h
    rw [List.foldlM_cons] at h
    cases hl : DymoLabeler.line s l with
    | error e2 =>
      rw [hl] at h
      have hh : (Except.error e2 : Except (PyError × DymoLabeler) DymoLabeler) = .error (e, s2) := h
      simp only [Except.error.injEq] at hh
      obtain ⟨hs, -⟩ := line_err_shape s l e s2 (by rw [hl, hh])
      rw [hs]
    | ok s1 =>
      rw [hl] at h
      have h2 : List.foldlM DymoLabeler.line s1 rest = .error (e, s2) := h
      have hrec := ih s1 e s2 h2
      have hs1 := line_ok_shape s l s1 hl
      rw [hrec, hs1]

theorem tapeColor_ok_inv {s s1 : DymoLabeler} {v : Int}
    (h : DymoLabeler.tapeColor s v = .ok s1) :
    s1 = DymoLabeler.buildCommand s [ESC, 67, v] := by
  unfold DymoLabeler.tapeColor at h
  split at h
  · simp at h
  · simp only [Except.ok.injEq] at h
    exact h.symm

theorem dotTab_ok_inv {s s1 : DymoLabeler} {v : Int}
    (h : DymoLabeler.dotTab s v = .ok s1) :
    ¬(v < 0 ∨ v > MAX_BYTES_PER_LINE) ∧
      s1 = { DymoLabeler.buildCommand s [ESC, 66, v] with dotTab_ := v, bytesPerLine_ := none } := by
  unfold DymoLabeler.dotTab at h
  split at h
  · simp at h
  next hc =>
    simp only [Except.ok.injEq] at h
    exact ⟨hc, h.symm⟩

theorem bytesPerLine_ok_inv {s s1 : DymoLabeler} {v : Int}
    (h : DymoLabeler.bytesPerLine s v = .ok s1) :
    ¬(v < 0 ∨ v + s.dotTab_ > MAX_BYTES_PER_LINE) ∧
      s1 = { s with
        cmd := s.cmd ++ (if some v = s.bytesPerLine_ then [] else [ESC, 68, v]),
        bytesPerLine_ := some v } := by
  by_cases hc : (v < 0 ∨ v + s.dotTab_ > MAX_BYTES_PER_LINE)
  · rw [bytesPerLine_err s v hc] at h
    simp at h
  · rw [bytesPerLine_ok_shape s v hc] at h
    simp only [Except.ok.injEq] at h
    exact ⟨hc, h.symm⟩

theorem skipLines_ok_inv {s s1 : DymoLabeler} {v : Int}
    (h : DymoLabeler.skipLines s v = .ok s1) :
    0 < v ∧
      s1 = { s with
        cmd := s.cmd ++ ((if some 0 = s.bytesPerLine_ then [] else [ESC, 68, 0]) ++
          List.replicate v.toNat SYN),
        bytesPerLine_ := some 0 } := by
  unfold DymoLabeler.skipLines at h
  split at h
  · simp at h
  next hv =>
    refine ⟨by omega, ?_⟩
    cases hb : DymoLabeler.bytesPerLine s 0 with
    | error e => rw [hb] at h; simp at h
    | ok s2 =>
      rw [hb] at h
      obtain ⟨-, hs2⟩ := bytesPerLine_ok_inv hb
      simp only [Except.ok.injEq] at h
      subst hs2
      rw [← h]
      cases s
      simp only [DymoLabeler.buildCommand, List.append_assoc]

/-- C8: a successful `rawPrintLabel` job starting from an empty buffer
flushes exactly one chunk whose stream is the tape-color command `ESC C 0`,
then the dot-tab command, the line commands in row order (each with its
conditional bytes-per-line prefix), the optional skip-lines block, and the
status request — and a stream of that shape never begins with the eight-zero
`initLabel` sequence, which the source references without calling. -/
theorem c8_no_init_bytes :
    (∀ (s : DymoLabeler) (lines : List (List Int)) (margin : Int)
      (lines1 : List (List Int)) (dottab : Nat),
      s.cmd = [] →
      stripZeros lines 0 = .ok (lines1, dottab) →
      (∃ sf, DymoLabeler.rawPrintLabel s lines margin = .ok sf) →
      ((DymoLabeler.rawPrintLabel s lines margin).map fun sf => sf.written) =
        .ok (s.written ++
          [[ESC, 67, 0] ++ [ESC, 66, (dottab : Int)] ++
            linesStream none (lines1.map dropTrailingZeros) ++
            (if 0 < margin then
              (if some 0 = memoAfter none (lines1.map dropTrailingZeros) then []
               else [ESC, 68, 0]) ++ List.replicate margin.toNat SYN
             else []) ++ [ESC, 65]])) ∧
    (∀ t : List Int, ([ESC, 67, 0] ++ t).take 8 ≠ List.replicate 8 (0 : Int)) := by
  constructor
  · intro s lines margin lines1 dottab hcmd hstrip hok
    obtain ⟨sf, hsf⟩ := hok
    rw [hsf]
    have hwr : sf.written = s.written ++
        [[ESC, 67, 0] ++ [ESC, 66, (dottab : Int)] ++
          linesStream none (lines1.map dropTrailingZeros) ++
          (if 0 < margin then
            (if some 0 = memoAfter none (lines1.map dropTrailingZeros) then []
             else [ESC, 68, 0]) ++ List.replicate margin.toNat SYN
           else []) ++ [ESC, 65]] := by
      unfold DymoLabeler.rawPrintLabel at hsf
      rw [hstrip] at hsf
      dsimp only at hsf
      cases htc : DymoLabeler.tapeColor s 0 with
      | error e => rw [htc] at hsf; simp at hsf
      | ok sa =>
        rw [htc] at hsf
        dsimp only at hsf
        have hsa := tapeColor_ok_inv htc
        cases hdt : DymoLabeler.dotTab sa (dottab : Int) with
        | error e => rw [hdt] at hsf; simp at hsf
        | ok sb =>
          rw [hdt] at hsf
          dsimp only at hsf
          obtain ⟨hdcond, hsb⟩ := dotTab_ok_inv hdt
          cases hfold : List.foldlM DymoLabeler.line sb (lines1.map dropTrailingZeros) with
          | error e => rw [hfold] at hsf; simp at hsf
          | ok sc =>
            rw [hfold] at hsf
            dsimp only at hsf
            have hsc := foldlM_line_ok _ _ _ hfold
            by_cases hmpos : margin > 0
            · rw [if_pos hmpos] at hsf
              cases hskip : DymoLabeler.skipLines sc margin with
              | error e => rw [hskip] at hsf; simp at hsf
              | ok sd =>
                rw [hskip] at hsf
                dsimp only at hsf
                obtain ⟨-, hsd⟩ := skipLines_ok_inv hskip
                simp only [Except.ok.injEq] at hsf
                subst hsf
                subst hsd
                subst hsc
                subst hsb
                subst hsa
                cases s
                simp only at hcmd
                subst hcmd
                simp [DymoLabeler.buildCommand, DymoLabeler.statusRequest,
                  DymoLabeler.sendCommand, List.append_assoc, hmpos]
            · rw [if_neg hmpos] at hsf
              dsimp only at hsf
              simp only [Except.ok.injEq] at hsf
              subst hsf
              subst hsc
              subst hsb
              subst hsa
              cases s
              simp only at hcmd
              subst hcmd
              simp [DymoLabeler.buildCommand, DymoLabeler.statusRequest,
                DymoLabeler.sendCommand, List.append_assoc, hmpos]
    rw [Except.map, hwr]
  · intro t h
    rw [List.replicate_succ] at h
    simp only [List.cons_append, List.take_succ_cons, List.cons.injEq] at h
    exact absurd h.1 (by decide)

theorem dotTab_err_inv {s s2 : DymoLabeler} {v : Int} {e : PyError}
    (h : DymoLabeler.dotTab s v = .error (e, s2)) : s2 = s := by
  unfold DymoLabeler.dotTab at h
  split at h
  · simp only [Except.error.injEq, Prod.mk.injEq] at h
    exact h.2.symm
  · simp at h

theorem tapeColor_err_inv {s s2 : DymoLabeler} {v : Int} {e : PyError}
    (h : DymoLabeler.tapeColor s v = .error (e, s2)) : s2 = s := by
  unfold DymoLabeler.tapeColor at h
  split at h
  · simp only [Except.error.injEq, Prod.mk.injEq] at h
    exact h.2.symm
  · simp at h

theorem bytesPerLine_err_inv {s s2 : DymoLabeler} {v : Int} {e : PyError}
    (h : DymoLabeler.bytesPerLine s v = .error (e, s2)) : s2 = s := by
  by_cases hc : (v < 0 ∨ v + s.dotTab_ > MAX_BYTES_PER_LINE)
  · rw [bytesPerLine_err s v hc] at h
    simp only [Except.error.injEq, Prod.mk.injEq] at h
    exact h.2.symm
  · rw [bytesPerLine_ok_shape s v hc] at h
    simp at h

theorem rawPrintLabel_err_written {s s2 : DymoLabeler} {lines : List (List Int)}
    {margin : Int} {e : PyError}
    (h : DymoLabeler.rawPrintLabel s lines margin = .error (e, s2)) :
    s2.written = s.written := by
  unfold DymoLabeler.rawPrintLabel at h
  cases hstrip : stripZeros lines 0 with
  | error e2 =>
    rw [hstrip] at h
    dsimp only at h
    simp only [Except.error.injEq, Prod.mk.injEq] at h
    rw [← h.2]
  | ok p =>
    obtain ⟨lines1, dottab⟩ := p
    rw [hstrip] at h
    dsimp only at h
    cases htc : DymoLabeler.tapeColor s 0 with
    | error e2 =>
      rw [htc] at h
      dsimp only at h
      simp only [Except.error.injEq] at h
      have : s2 = s := by
        have h2 : DymoLabeler.tapeColor s 0 = .error (e, s2) := by rw [htc, h]
        exact tapeColor_err_inv h2
      rw [this]
    | ok sa =>
      rw [htc] at h
      dsimp only at h
      have hsa := tapeColor_ok_inv htc
      have hsaw : sa.written = s.written := by rw [hsa]; rfl
      cases hdt : DymoLabeler.dotTab sa (dottab : Int) with
      | error e2 =>
        rw [hdt] at h
        dsimp only at h
        simp only [Except.error.injEq] at h
        have h2 : DymoLabeler.dotTab sa (dottab : Int) = .error (e, s2) := by rw [hdt, h]
        rw [dotTab_err_inv h2]
        exact hsaw
      | ok sb =>
        rw [hdt] at h
        dsimp only at h
        obtain ⟨-, hsb⟩ := dotTab_ok_inv hdt
        have hsbw : sb.written = s.written := by rw [hsb, ← hsaw]; rfl
        cases hfold : List.foldlM DymoLabeler.line sb (lines1.map dropTrailingZeros) with
        | error e2 =>
          rw [hfold] at h
          dsimp only at h
          simp only [Except.error.injEq] at h
          obtain ⟨e3, s3⟩ := e2
          have h2 : List.foldlM DymoLabeler.line sb (lines1.map dropTrailingZeros) =
              .error (e, s2) := by
            rw [hfold, h]
          rw [foldlM_line_err _ _ _ _ h2]
          exact hsbw
        | ok sc =>
          rw [hfold] at h
          dsimp only at h
          have hsc := foldlM_line_ok _ _ _ hfold
          have hscw : sc.written = s.written := by rw [hsc, ← hsbw]
          by_cases hmpos : margin > 0
          · rw [if_pos hmpos] at h
            cases hskip : DymoLabeler.skipLines sc margin with
            | error e2 =>
              rw [hskip] at h
              dsimp only at h
              simp only [Except.error.injEq] at h
              obtain ⟨e3, s3⟩ := e2
              have h2 : DymoLabeler.skipLines sc margin = .error (e, s2) := by rw [hskip, h]
              rw [(skipLines_err_shape _ _ _ _ h2).2]
              exact hscw
            | ok sd =>
              rw [hskip] at h
              simp at h
          · rw [if_neg hmpos] at h
            simp at h

/-- C9: every mid-level operation either appends its complete command to the
buffer (nothing, for a memoized `bytesPerLine` no-op) or raises leaving the
command buffer exactly as it was; and when any operation inside
`rawPrintLabel` raises, `sendCommand` is never reached, so no bytes from the
partially built buffer are written to the device. -/
theorem c9_error_atomicity :
    (∀ (s : DymoLabeler) (v : Int) (e : PyError) (s2 : DymoLabeler),
        DymoLabeler.dotTab s v = .error (e, s2) → s2.cmd = s.cmd) ∧
    (∀ (s : DymoLabeler) (v : Int) (e : PyError) (s2 : DymoLabeler),
        DymoLabeler.tapeColor s v = .error (e, s2) → s2.cmd = s.cmd) ∧
    (∀ (s : DymoLabeler) (v : Int) (e : PyError) (s2 : DymoLabeler),
        DymoLabeler.bytesPerLine s v = .error (e, s2) → s2.cmd = s.cmd) ∧
    (∀ (s : DymoLabeler) (l : List Int) (e : PyError) (s2 : DymoLabeler),
        DymoLabeler.line s l = .error (e, s2) → s2.cmd = s.cmd) ∧
    (∀ (s : DymoLabeler) (v : Int) (e : PyError) (s2 : DymoLabeler),
        DymoLabeler.skipLines s v = .error (e, s2) → s2.cmd = s.cmd) ∧
    (∀ (s s1 : DymoLabeler) (v : Int), DymoLabeler.dotTab s v = .ok s1 →
        s1.cmd = s.cmd ++ [ESC, 66, v]) ∧
    (∀ (s s1 : DymoLabeler) (v : Int), DymoLabeler.tapeColor s v = .ok s1 →
        s1.cmd = s.cmd ++ [ESC, 67, v]) ∧
    (∀ (s s1 : DymoLabeler) (v : Int), DymoLabeler.bytesPerLine s v = .ok s1 →
        s1.cmd = s.cmd ++ (if some v = s.bytesPerLine_ then [] else [ESC, 68, v])) ∧
    (∀ (s s1 : DymoLabeler) (l : List Int), DymoLabeler.line s l = .ok s1 →
        s1.cmd = s.cmd ++ ((if some (l.length : Int) = s.bytesPerLine_ then []
          else [ESC, 68, (l.length : Int)]) ++ SYN :: l)) ∧
    (∀ (s s1 : DymoLabeler) (v : Int), DymoLabeler.skipLines s v = .ok s1 →
        s1.cmd = s.cmd ++ ((if some 0 = s.bytesPerLine_ then [] else [ESC, 68, 0]) ++
          List.replicate v.toNat SYN)) ∧
    (∀ (s : DymoLabeler) (lines : List (List Int)) (margin : Int) (e : PyError)
        (s2 : DymoLabeler),
        DymoLabeler.rawPrintLabel s lines margin = .error (e, s2) → s2.written = s.written) := by
  refine ⟨?_, ?_, ?_, ?_, ?_, ?_, ?_, ?_, ?_, ?_, ?_⟩
  · intro s v e s2 h
    rw [dotTab_err_inv h]
  · intro s v e s2 h
    rw [tapeColor_err_inv h]
  · intro s v e s2 h
    rw [bytesPerLine_err_inv h]
  · intro s l e s2 h
    rw [(line_err_shape s l e s2 h).1]
  · intro s v e s2 h
    exact (skipLines_err_shape s v e s2 h).1
  · intro s s1 v h
    rw [(dotTab_ok_inv h).2]
    rfl
  · intro s s1 v h
    rw [tapeColor_ok_inv h]
    rfl
  · intro s s1 v h
    rw [(bytesPerLine_ok_inv h).2]
  · intro s s1 l h
    rw [line_ok_shape s l s1 h]
  · intro s s1 v h
    rw [(skipLines_ok_inv h).2]
  · intro s lines margin e s2 h
    exact rawPrintLabel_err_written h

/-- C9 witness: `dotTab 9` raises from the initial state and the theorem
yields the unchanged buffer. -/
theorem c9_witness :
    DymoLabeler.dotTab dymoInit 9 = .error (.valueError, dymoInit) ∧
    dymoInit.cmd = dymoInit.cmd :=
  ⟨rfl, c9_error_atomicity.1 dymoInit 9 .valueError dymoInit rfl⟩

/-- C3 witness: the theorem applied at `d = 3`, `b = 5` from the initial
state. -/
theorem c3_witness :
    exceptIsOk ((DymoLabeler.dotTab dymoInit 3).bind fun s1 =>
      DymoLabeler.bytesPerLine s1 5) = true :=
  ((c3_dot_tab_bytes_per_line dymoInit 3 5 (by decide) (by decide)).2.1
    (by decide)).mpr (by decide)

/-- C8 witness: the theorem applied to the one-row job `[[1]]` with margin
112 from the initial state. -/
theorem c8_witness :
    ((DymoLabeler.rawPrintLabel dymoInit [[1]] 112).map fun sf => sf.written) =
      .ok (dymoInit.written ++
        [[ESC, 67, 0] ++ [ESC, 66, ((0 : Nat) : Int)] ++
          linesStream none ([[1]].map dropTrailingZeros) ++
          (if 0 < (112 : Int) then
            (if some 0 = memoAfter none ([[1]].map dropTrailingZeros) then []
             else [ESC, 68, 0]) ++ List.replicate (112 : Int).toNat SYN
           else []) ++ [ESC, 65]]) :=
  c8_no_init_bytes.1 dymoInit [[1]] 112 [[1]] 0 rfl rfl ⟨_, rfl⟩

/-- C10 counterexample: `printLabel` on `[[1]]` returns normally, yet the
caller's matrix argument afterwards equals exactly the matrix passed in,
refuting the claim that the argument is never equal to the original after
the call. -/
theorem c10_counterexample :
    printLabelArgAfter [[1]] = [[1]] ∧
    exceptIsOk (DymoLabeler.printLabel dymoInit [[1]] 112) = true :=
  ⟨rfl, rfl⟩

set_option maxRecDepth 40000 in
/-- C10 (amended): `printLabel` can mutate its caller's matrix in place —
a 250-row matrix is reduced to its final 50-row chunk, and a row `[1, 0]`
whose leading byte is nonzero is trailing-trimmed to `[1]` through the
caller's own row object — while a matrix whose leading column is stripped,
such as `[[0, 1]]`, keeps its original rows because the strip rebinds the
local name to fresh lists. -/
theorem c10_mutation :
    printLabelArgAfter (List.replicate 250 [1]) = List.replicate 50 [1] ∧
    List.replicate 50 ([1] : List Int) ≠ List.replicate 250 [1] ∧
    printLabelArgAfter [[1, 0]] = [[1]] ∧
    ([[1]] : List (List Int)) ≠ [[1, 0]] ∧
    printLabelArgAfter [[0, 1]] = [[0, 1]] := by
  refine ⟨by rfl, ?_, by rfl, by decide, by rfl⟩
  intro h
  have := congrArg List.length h
  simp at this

theorem packRowF_length :
    ∀ (fuel : Nat) (bits : List Bool), bits.length ≤ fuel →
      (packRowF fuel bits).length = (bits.length + 7) / 8 := by
  intro fuel
  induction fuel with
  | zero =>
    intro bits h
    have hb : bits = [] := List.length_eq_zero.mp (Nat.le_zero.mp h)
    subst hb
    rfl
  | succ f ih =>
    intro bits h
    cases bits with
    | nil => rfl
    | cons b t =>
      simp only [List.length_cons] at h
      simp only [packRowF, List.length_cons]
      rw [ih ((b :: t).drop 8) (by simp only [List.length_drop, List.length_cons]; omega)]
      simp only [List.length_drop, List.length_cons]
      omega

theorem packRow_length (bits : List Bool) :
    (packRow bits).length = (bits.length + 7) / 8 :=
  packRowF_length bits.length bits le_rfl

theorem sum_map_const_on {α : Type} (l : List α) (f : α → Nat) (K : Nat)
    (h : ∀ x ∈ l, f x = K) : (l.map f).sum = l.length * K := by
  induction l with
  | nil => simp
  | cons a t ih =>
    simp only [List.map_cons, List.sum_cons, List.length_cons]
    rw [h a (List.mem_cons_self a t), ih fun x hx => h x (List.mem_cons_of_mem a hx)]
    rw [Nat.succ_mul]
    omega

theorem tobytes1_rotate_length (img : PILImage) (hv : img.valid) :
    (tobytes1 (rotate270 img)).length = img.width * ((img.height + 7) / 8) := by
  unfold tobytes1 rotate270
  rw [List.length_flatMap, List.map_map]
  rw [sum_map_const_on _ _ ((img.height + 7) / 8) ?_]
  · rw [List.length_range]
  · intro c _
    simp only [Function.comp_apply, packRow_length, List.length_map, List.length_reverse, hv.1]

theorem chunksF_length :
    ∀ (w q fuel : Nat) (stream : List Int),
      1 ≤ q → stream.length = w * q → stream.length ≤ fuel →
      (chunksF fuel q stream).length = w := by
  intro w
  induction w with
  | zero =>
    intro q fuel stream hq hlen hfuel
    have hs : stream = [] := List.length_eq_zero.mp (by omega)
    subst hs
    cases fuel <;> rfl
  | succ w ih =>
    intro q fuel stream hq hlen hfuel
    rw [Nat.succ_mul] at hlen
    have hpos : 0 < stream.length := by omega
    cases stream with
    | nil => simp at hpos
    | cons a t =>
      cases fuel with
      | zero => omega
      | succ f =>
        simp only [chunksF, List.length_cons]
        rw [ih q f ((a :: t).drop q) hq ?hlen2 ?hfuel2]
        case hlen2 =>
          rw [List.length_drop]
          simp only [List.length_cons] at hlen ⊢
          omega
        case hfuel2 =>
          rw [List.length_drop]
          simp only [List.length_cons] at hfuel ⊢
          omega

/-- C4 counterexample: for a valid 2-wide, 8-tall bitmap the serialized
stream splits into 2 row-length chunks — the original width — while the
rotated bitmap's width is 8; the transform succeeds anyway, refuting the
claim that the chunk count is required to equal the rotated width. -/
theorem c4_counterexample :
    matrixTransform { width := 2, height := 8, rows := List.replicate 8 [false, false] } =
      .ok [[0], [0]] ∧
    (rotate270 { width := 2, height := 8, rows := List.replicate 8 [false, false] }).width = 8 ∧
    ((matrixTransform { width := 2, height := 8, rows := List.replicate 8 [false, false] }).map
      List.length) = .ok 2 ∧
    (2 : Nat) ≠ 8 :=
  ⟨rfl, rfl, rfl, by decide⟩

/-- C4 (amended): for every well-formed bitmap of positive height the
transform succeeds, and the chunk count — both the checked quotient and the
row count of the produced matrix — equals the original bitmap's width, which
is the rotated bitmap's height (not its width); the consistency error would
fire exactly if that count differed from the original width. -/
theorem c4_transform_consistency :
    ∀ (img : PILImage), img.valid → 1 ≤ img.height →
      ((matrixTransform img).map List.length) = .ok img.width ∧
      (tobytes1 (rotate270 img)).length / ((img.height + 7) / 8) = img.width ∧
      (rotate270 img).height = img.width := by
  intro img hv hh
  have hq : 1 ≤ (img.height + 7) / 8 := by omega
  have hlen := tobytes1_rotate_length img hv
  have hdiv : (tobytes1 (rotate270 img)).length / ((img.height + 7) / 8) = img.width := by
    rw [hlen]
    exact Nat.mul_div_cancel img.width (by omega)
  refine ⟨?_, hdiv, rfl⟩
  unfold matrixTransform
  dsimp only
  rw [if_neg (show ¬((img.height + 7) / 8 = 0) by omega)]
  rw [if_neg (show ¬((tobytes1 (rotate270 img)).length / ((img.height + 7) / 8) ≠ img.width)
    by simp [hdiv])]
  simp only [Except.map]
  rw [chunksF_length img.width ((img.height + 7) / 8) _ _ hq (by rw [hlen]) le_rfl]

/-- C4 witness: the theorem applied at the concrete 2-by-8 bitmap. -/
theorem c4_witness :
    ((matrixTransform { width := 2, height := 8, rows := List.replicate 8 [false, false] }).map
      List.length) = .ok 2 :=
  (c4_transform_consistency { width := 2, height := 8, rows := List.replicate 8 [false, false] }
    ⟨rfl, by decide⟩ (by decide)).1

theorem foldl_natmax_le (l : List Nat) (M : Nat) :
    ∀ a, a ≤ M → (∀ x ∈ l, x ≤ M) → l.foldl Nat.max a ≤ M := by
  induction l with
  | nil => intro a ha _; simpa using ha
  | cons y ys ih =>
    intro a ha hall
    simp only [List.foldl_cons]
    exact ih (Nat.max a y) (Nat.max_le.mpr ⟨ha, hall y (List.mem_cons_self y ys)⟩)
      fun x hx => hall x (List.mem_cons_of_mem y hx)

theorem le_foldl_natmax_init (l : List Nat) : ∀ a, a ≤ l.foldl Nat.max a := by
  induction l with
  | nil => intro a; simp
  | cons y ys ih =>
    intro a
    simp only [List.foldl_cons]
    exact le_trans (Nat.le_max_left a y) (ih (Nat.max a y))

theorem le_foldl_natmax (l : List Nat) : ∀ a, ∀ x ∈ l, x ≤ l.foldl Nat.max a := by
  induction l with
  | nil => intro a x hx; simp at hx
  | cons y ys ih =>
    intro a x hx
    simp only [List.foldl_cons]
    rcases List.mem_cons.mp hx with h | h
    · subst h
      exact le_trans (Nat.le_max_right a x) (le_foldl_natmax_init ys (Nat.max a x))
    · exact ih (Nat.max a y) x h

theorem foldl_natmax_eq (l : List Nat) (M : Nat) (hm : M ∈ l) (hle : ∀ x ∈ l, x ≤ M) :
    l.foldl Nat.max 0 = M :=
  Nat.le_antisymm (foldl_natmax_le l M 0 (Nat.zero_le M) hle) (le_foldl_natmax l 0 M hm)

/-- C5 counterexample: composing two elements of heights 1 and 2 yields a
bitmap of height 1 — the first element's height — not the maximum height 2,
refuting the claim that the composed height is the maximum element height. -/
theorem c5_counterexample :
    (composeBitmaps [{ width := 1, height := 1, rows := [[true]] },
      { width := 1, height := 2, rows := [[false], [false]] }]).height = 1 ∧
    (([{ width := 1, height := 1, rows := [[true]] },
      { width := 1, height := 2, rows := [[false], [false]] }] : List PILImage).map
        fun b => b.height).foldl Nat.max 0 = 2 ∧
    (1 : Nat) ≠ 2 :=
  ⟨rfl, rfl, by decide⟩

/-- C5 (amended): with two or more elements the composed width is the sum of
the element widths plus 4 px between each adjacent pair, and the composed
height is the FIRST element's height, which coincides with the maximum
element height exactly when no later element is taller (as in every job the
program builds); a single element's bitmap is used unmodified. -/
theorem c5_composition :
    ∀ (b0 : PILImage) (rest : List PILImage),
      (rest ≠ [] →
        (composeBitmaps (b0 :: rest)).width =
          ((b0 :: rest).map fun b => b.width).sum + 4 * ((b0 :: rest).length - 1) ∧
        (composeBitmaps (b0 :: rest)).height = b0.height ∧
        ((∀ b ∈ b0 :: rest, b.height ≤ b0.height) →
          (composeBitmaps (b0 :: rest)).height =
            ((b0 :: rest).map fun b => b.height).foldl Nat.max 0)) ∧
      composeBitmaps [b0] = b0 := by
  intro b0 rest
  constructor
  · intro hne
    have hlen : (b0 :: rest).length > 1 := by
      cases rest with
      | nil => exact absurd rfl hne
      | cons r rs => simp
    unfold composeBitmaps
    rw [if_pos hlen]
    refine ⟨rfl, rfl, ?_⟩
    intro hall
    have : ((b0 :: rest).map fun b => b.height).foldl Nat.max 0 = b0.height := by
      apply foldl_natmax_eq
      · exact List.mem_map.mpr ⟨b0, List.mem_cons_self b0 rest, rfl⟩
      · intro x hx
        obtain ⟨b, hb, rfl⟩ := List.mem_map.mp hx
        exact hall b hb
    rw [this]
    rfl
  · unfold composeBitmaps
    rfl

/-- C5 witness: the theorem applied to two concrete elements of widths 3 and
2 and equal heights. -/
theorem c5_witness :
    (composeBitmaps [{ width := 3, height := 2, rows := [[true, true, true], [true, true, true]] },
      { width := 2, height := 2, rows := [[false, false], [false, false]] }]).width = 9 ∧
    (composeBitmaps [{ width := 3, height := 2, rows := [[true, true, true], [true, true, true]] },
      { width := 2, height := 2, rows := [[false, false], [false, false]] }]).height = 2 := by
  have h := (c5_composition { width := 3, height := 2, rows := [[true, true, true], [true, true, true]] }
    [{ width := 2, height := 2, rows := [[false, false], [false, false]] }]).1 (by simp)
  exact ⟨by rw [h.1]; rfl, by rw [h.2.1]⟩

/-- C6 counterexample: with a matching bus entry, no by-number symlink and
no `/dev` file named after the hidraw node, `getDeviceFile` raises the
`OSError` of `os.stat` on the missing candidate instead of returning the
not-found result, refuting the claim that every unsuccessful resolution
returns `None` rather than raising. -/
theorem c6_counterexample :
    getDeviceFile
      { busEntries := [("0003:0922:1002.0001").toList],
        hidrawEntries := [("hidraw0").toList],
        devMajor := 247, devMinor := 0,
        charSymlinkTarget := none,
        devNameRdev := none,
        devWalkFiles := [] } 3 2338 4098 = .error .osError := by rfl

/-- C6 (amended): when no bus entry matches the identifier pattern the
result is `None`; when the major:minor symlink exists its resolved target is
returned; when the name-based candidate exists with a mismatching device
number and the full walk finds nothing, the result is `None`; but when the
name-based candidate is missing from `/dev`, `os.stat` raises instead. -/
theorem c6_device_lookup :
    ∀ (fs : SysFS) (c v p : Nat),
      (fs.busEntries.find? (fun n => reMatchDev c v p n) = none →
        getDeviceFile fs c v p = .ok none) ∧
      (∀ entry devname rest target,
        fs.busEntries.find? (fun n => reMatchDev c v p n) = some entry →
        fs.hidrawEntries = devname :: rest →
        fs.charSymlinkTarget = some target →
        getDeviceFile fs c v p = .ok (some target)) ∧
      (∀ entry devname rest,
        fs.busEntries.find? (fun n => reMatchDev c v p n) = some entry →
        fs.hidrawEntries = devname :: rest →
        fs.charSymlinkTarget = none →
        fs.devNameRdev = none →
        getDeviceFile fs c v p = .error .osError) ∧
      (∀ entry devname rest rdev,
        fs.busEntries.find? (fun n => reMatchDev c v p n) = some entry →
        fs.hidrawEntries = devname :: rest →
        fs.charSymlinkTarget = none →
        fs.devNameRdev = some rdev →
        rdev ≠ (fs.devMajor, fs.devMinor) →
        fs.devWalkFiles.find? (fun pr => pr.2 = (fs.devMajor, fs.devMinor)) = none →
        getDeviceFile fs c v p = .ok none) := by
  intro fs c v p
  refine ⟨?_, ?_, ?_, ?_⟩
  · intro h
    unfold getDeviceFile
    rw [h]
  · intro entry devname rest target h1 h2 h3
    unfold getDeviceFile
    rw [h1]
    dsimp only
    rw [h2]
    dsimp only
    rw [h3]
  · intro entry devname rest h1 h2 h3 h4
    unfold getDeviceFile
    rw [h1]
    dsimp only
    rw [h2]
    dsimp only
    rw [h3]
    dsimp only
    rw [h4]
  · intro entry devname rest rdev h1 h2 h3 h4 h5 h6
    unfold getDeviceFile
    rw [h1]
    dsimp only
    rw [h2]
    dsimp only
    rw [h3]
    dsimp only
    rw [h4]
    dsimp only
    rw [if_neg h5, h6]

/-- C6 witness: the theorem applied to a fixture with a matching symlink,
and to a fixture whose bus entries do not match. -/
theorem c6_witness :
    getDeviceFile
      { busEntries := [("0003:0922:1002.0001").toList],
        hidrawEntries := [("hidraw0").toList],
        devMajor := 247, devMinor := 0,
        charSymlinkTarget := some (("/dev/hidraw0").toList),
        devNameRdev := none,
        devWalkFiles := [] } 3 2338 4098 = .ok (some (("/dev/hidraw0").toList)) ∧
    getDeviceFile
      { busEntries := [("0003:0922:1001.0001").toList],
        hidrawEntries := [],
        devMajor := 0, devMinor := 0,
        charSymlinkTarget := none,
        devNameRdev := none,
        devWalkFiles := [] } 3 2338 4098 = .ok none :=
  ⟨(c6_device_lookup _ 3 2338 4098).2.1 _ _ _ _ rfl rfl rfl,
   (c6_device_lookup _ 3 2338 4098).1 rfl⟩

theorem scaling_mem {x y di dj sc : Nat} (hdi : di < sc) (hdj : dj < sc) :
    (x + di, y + dj) ∈ scaling (x, y) sc := by
  unfold scaling
  rw [List.mem_flatMap]
  exact ⟨di, List.mem_range.mpr hdi, List.mem_map.mpr ⟨dj, List.mem_range.mpr hdj, rfl⟩⟩

theorem qrPoints_mem {qr : List (List Char)} {sc off i j di dj : Nat}
    (hi : i < qr.length) (hj : j < (qr.getD i []).length)
    (hon : (qr.getD i []).getD j '0' = '1') (hdi : di < sc) (hdj : dj < sc) :
    (j * sc + di, i * sc + off + dj) ∈ qrPoints qr sc off := by
  unfold qrPoints
  rw [List.mem_flatMap]
  refine ⟨i, List.mem_range.mpr hi, ?_⟩
  rw [List.mem_flatMap]
  refine ⟨j, List.mem_range.mpr hj, ?_⟩
  rw [if_pos hon]
  exact scaling_mem hdi hdj

/-- C7: with label height 64, QR composition fails with the too-dense error
exactly when `scale = 64 / N` is zero; otherwise it succeeds with a 64 by 64
bitmap in which every on module `(i, j)` is painted as a `scale` by `scale`
block of pixels at `(j*scale + di, i*scale + offset + dj)` where
`offset = (64 - N*scale) / 2` vertically centers the code. -/
theorem c7_qr_compose :
    ∀ (qr : List (List Char)), 1 ≤ qr.length →
      (qrCompose qr = .error .dymoPrint ↔ 64 / qr.length = 0) ∧
      (64 / qr.length ≠ 0 →
        qrCompose qr = .ok (64, 64,
          qrPoints qr (64 / qr.length) ((64 - qr.length * (64 / qr.length)) / 2))) ∧
      (∀ i j di dj, i < qr.length → j < (qr.getD i []).length →
        (qr.getD i []).getD j '0' = '1' →
        di < 64 / qr.length → dj < 64 / qr.length →
        (j * (64 / qr.length) + di,
         i * (64 / qr.length) + (64 - qr.length * (64 / qr.length)) / 2 + dj)
          ∈ qrPoints qr (64 / qr.length) ((64 - qr.length * (64 / qr.length)) / 2)) := by
  intro qr hlen
  have hne : ¬(qr.length = 0) := by omega
  refine ⟨?_, ?_, ?_⟩
  · unfold qrCompose
    dsimp only
    rw [if_neg hne]
    by_cases hs : 64 / qr.length = 0
    · rw [if_pos (by simpa using hs)]
      simp [hs]
    · rw [if_neg (by simpa using hs)]
      simp [hs]
  · intro hs
    unfold qrCompose
    dsimp only
    rw [if_neg hne, if_neg (by simpa using hs)]
  · intro i j di dj hi hj hon hdi hdj
    exact qrPoints_mem hi hj hon hdi hdj

/-- C7 witness: `N = 80` fails as too dense; `N = 40` succeeds with scale 1
and offset 12, and paints the first module's pixel. -/
theorem c7_witness :
    qrCompose (List.replicate 80 (List.replicate 80 '1')) = .error .dymoPrint ∧
    qrCompose (List.replicate 40 (List.replicate 40 '1')) =
      .ok (64, 64, qrPoints (List.replicate 40 (List.replicate 40 '1')) 1 12) ∧
    (0 * 1 + 0, 0 * 1 + 12 + 0) ∈ qrPoints (List.replicate 40 (List.replicate 40 '1')) 1 12 := by
  refine ⟨?_, ?_, ?_⟩
  · exact (c7_qr_compose _ (by decide)).1.mpr (by decide)
  · exact (c7_qr_compose _ (by decide)).2.1 (by decide)
  · exact (c7_qr_compose _ (by decide)).2.2 0 0 0 0 (by decide) (by decide) (by decide)
      (by decide) (by decide)
